import Mathlib

/-!
Verification of the GCPD match-history fetcher (src/fetcher.js) against its
natural-language specification.

The development is a shallow embedding of the source:

* JavaScript values flowing through the pipeline are modelled by `Value`
  (null / boolean / number / string / array / object).  Numbers are modelled
  exactly (`Int` for the integer branch of `tryParseNumber`, `Rat` for the
  decimal branch); the double-precision rounding of the JS runtime is
  irrelevant to every claim checked here, which concern small literals only.
* Host capabilities (the DOM parser, `new Date(...)`, `fetch`) are passed in
  as explicit function arguments, following section 9 of the spec which
  requires them to be treated as external capabilities.
* Records are association lists with JavaScript object-assignment semantics
  (`jsSet` overwrites the first binding, `jsGet` reads it).
-/

/-- JavaScript runtime values that flow through the pipeline.  `parseValue`
only ever produces `null`, `bool`, `int`, `float` and `str`; `arr` and `obj`
exist because `buildCsv`'s escape helper has a dedicated branch for
non-scalar values (`typeof v === 'object'`). -/
inductive Value where
  | null : Value
  | bool (b : Bool) : Value
  | int (n : Int) : Value
  | float (q : Rat) : Value
  | str (s : String) : Value
  | arr (elems : List Value) : Value
  | obj (fields : List (String × Value)) : Value

/-- Digits of the exact decimal expansion of `rem / den`, most significant
first, stopping when the remainder reaches zero (or after `fuel` digits).
Models how the JS runtime prints the finite decimals produced by
`parseFloat` on strings matching the decimal pattern of `tryParseNumber`. -/
def fracDigits : Nat → Nat → Nat → List Char
  | 0, _, _ => []
  | _ + 1, 0, _ => []
  | fuel + 1, rem, den =>
    let r10 := rem * 10
    Char.ofNat (48 + r10 / den) :: fracDigits fuel (r10 % den) den

/-- Decimal rendering of a rational, as the JS runtime renders the numbers
this program produces: no decimal point for integral values, otherwise the
exact (finite) decimal expansion. -/
def ratToString (q : Rat) : String :=
  let sign := if q < 0 then "-" else ""
  let num := q.num.natAbs
  let den := q.den
  let digits := fracDigits 50 (num % den) den
  sign ++ toString (num / den) ++ (if digits.isEmpty then "" else "." ++ String.mk digits)

/-- Hex digit used by the JSON string escaper. -/
def hexDigit (n : Nat) : Char :=
  if n < 10 then Char.ofNat (48 + n) else Char.ofNat (87 + n)

/-- JSON escaping of one character, as performed by `JSON.stringify` inside a
string literal. -/
def jsonEscapeChar (c : Char) : List Char :=
  if c = '"' then ['\\', '"']
  else if c = '\\' then ['\\', '\\']
  else if c = '\n' then ['\\', 'n']
  else if c = '\r' then ['\\', 'r']
  else if c = '\t' then ['\\', 't']
  else if c = Char.ofNat 8 then ['\\', 'b']
  else if c = Char.ofNat 12 then ['\\', 'f']
  else if c.toNat < 32 then
    ['\\', 'u', '0', '0', hexDigit (c.toNat / 16), hexDigit (c.toNat % 16)]
  else [c]

/-- JSON escaping of a whole string body. -/
def jsonEscape (s : String) : String :=
  String.mk (s.toList.flatMap jsonEscapeChar)

mutual

/-- Compact serialization of a value, as `JSON.stringify` renders it
(`buildCsv` applies it to values whose `typeof` is `'object'`). -/
def jsonStringify : Value → String
  | .null => "null"
  | .bool true => "true"
  | .bool false => "false"
  | .int n => toString n
  | .float q => ratToString q
  | .str s => "\"" ++ jsonEscape s ++ "\""
  | .arr l => "[" ++ String.intercalate "," (jsonStringifyList l) ++ "]"
  | .obj fs => "\x7b" ++ String.intercalate "," (jsonStringifyFields fs) ++ "\x7d"

def jsonStringifyList : List Value → List String
  | [] => []
  | v :: t => jsonStringify v :: jsonStringifyList t

def jsonStringifyFields : List (String × Value) → List String
  | [] => []
  | (k, v) :: t => ("\"" ++ jsonEscape k ++ "\":" ++ jsonStringify v) :: jsonStringifyFields t

end

mutual

/-- JavaScript `String(v)` coercion.  Arrays join their elements with commas
(null elements becoming empty), plain objects print as `[object Object]`. -/
def jsToString : Value → String
  | .null => "null"
  | .bool true => "true"
  | .bool false => "false"
  | .int n => toString n
  | .float q => ratToString q
  | .str s => s
  | .arr l => String.intercalate "," (jsToStringElems l)
  | .obj _ => "[object Object]"

def jsToStringElems : List Value → List String
  | [] => []
  | .null :: t => "" :: jsToStringElems t
  | v :: t => jsToString v :: jsToStringElems t

end

/-- JavaScript truthiness of a value. -/
def truthy : Value → Bool
  | .null => false
  | .bool b => b
  | .int n => decide (n ≠ 0)
  | .float q => decide (q ≠ 0)
  | .str s => decide (s ≠ "")
  | .arr _ => true
  | .obj _ => true

/-- Truthiness of a possibly-missing value (`undefined` is falsy). -/
def truthyOpt : Option Value → Bool
  | none => false
  | some v => truthy v

/-! ## Character classes used by `normalizeKey` (src/fetcher.js lines 30-38) -/

/-- Whitespace in the sense of the JavaScript regexp class `\s` (also the set
stripped by `String.prototype.trim`): ASCII whitespace, NBSP, and the Unicode
space separators, line separators and BOM. -/
def jsWs (c : Char) : Bool :=
  let v := c.toNat
  v = 9 ∨ v = 10 ∨ v = 11 ∨ v = 12 ∨ v = 13 ∨ v = 32 ∨ v = 160 ∨ v = 0x1680 ∨
    (0x2000 ≤ v ∧ v ≤ 0x200A) ∨ v = 0x2028 ∨ v = 0x2029 ∨ v = 0x202F ∨
    v = 0x205F ∨ v = 0x3000 ∨ v = 0xFEFF

/-- The delimiter class `[:–—\-\/\\]` of `normalizeKey`: colon, en dash,
em dash, hyphen, slash, backslash. -/
def isDelim (c : Char) : Bool :=
  let v := c.toNat
  v = 58 ∨ v = 0x2013 ∨ v = 0x2014 ∨ v = 45 ∨ v = 47 ∨ v = 92

/-- The JavaScript regexp class `\w`: ASCII letters, digits, underscore. -/
def isWordChar (c : Char) : Bool :=
  let v := c.toNat
  (97 ≤ v ∧ v ≤ 122) ∨ (65 ≤ v ∧ v ≤ 90) ∨ (48 ≤ v ∧ v ≤ 57) ∨ v = 95

/-- ASCII lowercasing.  `normalizeKey` applies `toLowerCase` after stripping
every character outside `\w` and `\s`; on that residue (ASCII word characters
and whitespace) Unicode lowercasing coincides with ASCII lowercasing. -/
def asciiLower (c : Char) : Char :=
  if 65 ≤ c.toNat ∧ c.toNat ≤ 90 then Char.ofNat (c.toNat + 32) else c

/-- Single left-to-right scan replacing every maximal run of characters
satisfying `p` by the single character `repl`, as a global regexp replace of
`X+` does; `inRun` records whether the previous character belonged to a run
(so the run's replacement has already been emitted). -/
def collapseRunsAux (p : Char → Bool) (repl : Char) (inRun : Bool) : List Char → List Char
  | [] => []
  | c :: rest =>
    if p c then
      if inRun then collapseRunsAux p repl true rest
      else repl :: collapseRunsAux p repl true rest
    else c :: collapseRunsAux p repl false rest

/-- Replacement of every maximal run of characters satisfying `p` by the
single character `repl`. -/
def collapseRuns (p : Char → Bool) (repl : Char) (l : List Char) : List Char :=
  collapseRunsAux p repl false l

/-- JavaScript `String.prototype.trim` on a character list. -/
def trimChars (l : List Char) : List Char :=
  ((l.dropWhile jsWs).reverse.dropWhile jsWs).reverse

/-- JavaScript trim on strings (Lean's `String.trim` strips a smaller
character set, so it is not used). -/
def jsTrim (s : String) : String :=
  String.mk (trimChars s.toList)

/-- Core of `normalizeKey` (src/fetcher.js lines 30-38): NBSP to space, trim,
delimiter runs to one space, strip the rest of the non-word non-space
characters, lowercase, whitespace runs to single underscores. -/
def normalizeKeyChars (l : List Char) : List Char :=
  let l1 := l.map (fun c => if c.toNat = 160 then ' ' else c)
  let l2 := trimChars l1
  let l3 := collapseRuns isDelim ' ' l2
  let l4 := l3.filter (fun c => isWordChar c || jsWs c)
  let l5 := l4.map asciiLower
  collapseRuns jsWs '_' l5

/-- Label-to-snake_case normalization, `normalizeKey` of the source. -/
def normalizeKey (s : String) : String :=
  String.mk (normalizeKeyChars s.toList)

/-! ## Canonical map (src/fetcher.js lines 41-89) and key canonicalization -/

/-- Own properties of the `CANONICAL_MAP` object literal. -/
def CANONICAL_MAP : List (String × String) := [
  ("reached_conclusion", "reached_conclusion"),
  ("type", "type"),
  ("map_index", "map_index"),
  ("match_creation_time", "match_creation_time"),
  ("match_ip", "match_ip"),
  ("match_port", "match_port"),
  ("datacenter", "datacenter"),
  ("match_size", "match_size"),
  ("join_time", "join_time"),
  ("party_id_at_join", "party_id_at_join"),
  ("team_at_join", "team_at_join"),
  ("ping_estimate_at_join", "ping_estimate_at_join"),
  ("joined_after_match_start", "joined_after_match_start"),
  ("time_in_queue", "time_in_queue"),
  ("match_end_time", "match_end_time"),
  ("season_id", "season_id"),
  ("match_status", "match_status"),
  ("match_duration", "match_duration"),
  ("red_team_final_score", "red_team_final_score"),
  ("blu_team_final_score", "blu_team_final_score"),
  ("winning_team", "winning_team"),
  ("game_mode", "game_mode"),
  ("win_reason", "win_reason"),
  ("match_flags", "match_flags"),
  ("match_included_bots", "match_included_bots"),
  ("time_left_match", "time_left_match"),
  ("result_partyid", "result_partyid"),
  ("result_team", "result_team"),
  ("result_score", "result_score"),
  ("result_ping", "result_ping"),
  ("result_player_flags", "result_player_flags"),
  ("result_displayed_rating", "result_displayed_rating"),
  ("result_displayed_rating_change", "result_displayed_rating_change"),
  ("result_rank", "result_rank"),
  ("classes_played", "classes_played"),
  ("kills", "kills"),
  ("deaths", "deaths"),
  ("damage", "damage"),
  ("healing", "healing"),
  ("support", "support"),
  ("score_medal", "score_medal"),
  ("kills_medal", "kills_medal"),
  ("damage_medal", "damage_medal"),
  ("healing_medal", "healing_medal"),
  ("support_medal", "support_medal"),
  ("leave_reason", "leave_reason"),
  ("connection_time", "connection_time")]

/-- Properties every plain object literal inherits from `Object.prototype`.
A property read `CANONICAL_MAP[k]` that misses every own property still finds
these, and each of them is a truthy (non-string) function or object. -/
def objectProtoProps : List String := [
  "constructor", "hasOwnProperty", "isPrototypeOf", "propertyIsEnumerable",
  "toLocaleString", "toString", "valueOf", "__defineGetter__",
  "__defineSetter__", "__lookupGetter__", "__lookupSetter__", "__proto__"]

/-- Result of the JavaScript property read `CANONICAL_MAP[keyNorm]`: either a
string stored in the map, or a built-in function/object inherited from
`Object.prototype`. -/
inductive PropLookup where
  | str (s : String) : PropLookup
  | builtinFn (name : String) : PropLookup

/-- JavaScript property read on the `CANONICAL_MAP` object literal: own
properties first, then the `Object.prototype` chain, then `undefined`. -/
def canonMapGet (k : String) : Option PropLookup :=
  match CANONICAL_MAP.find? (fun p => p.1 = k) with
  | some p => some (.str p.2)
  | none => if objectProtoProps.contains k then some (.builtinFn k) else none

/-- Truthiness of a property-read result. -/
def propTruthy : PropLookup → Bool
  | .str s => decide (s ≠ "")
  | .builtinFn _ => true

/-- The canonicalization step of `parseMatchHtml` (src/fetcher.js line 154):
`cfg.canonicalMap[keyNorm] || keyNorm`. -/
def canonicalizeKey (k : String) : PropLookup :=
  match canonMapGet k with
  | some v => if propTruthy v then v else .str k
  | none => .str k

/-! ## Value parsing (src/fetcher.js lines 91-122) -/

/-- Test for the anchored regexp `^-?\d+$` of `tryParseNumber`. -/
def intPat (l : List Char) : Bool :=
  match l with
  | '-' :: rest => decide (rest ≠ []) && rest.all Char.isDigit
  | _ => decide (l ≠ []) && l.all Char.isDigit

/-- Digit-list to natural number. -/
def digitsToNat (l : List Char) : Nat :=
  l.foldl (fun a c => a * 10 + (c.toNat - 48)) 0

/-- Value of `parseInt(s, 10)` on a string matching `^-?\d+$`. -/
def parseIntChars (l : List Char) : Int :=
  match l with
  | '-' :: rest => -(digitsToNat rest : Int)
  | _ => (digitsToNat l : Int)

/-- Test for the anchored regexp `^-?\d+\.\d+$` of `tryParseNumber`. -/
def decPat (l : List Char) : Bool :=
  let body := fun (m : List Char) =>
    let a := m.takeWhile Char.isDigit
    let b := m.dropWhile Char.isDigit
    decide (a ≠ []) &&
      (match b with
       | '.' :: c => decide (c ≠ []) && c.all Char.isDigit
       | _ => false)
  match l with
  | '-' :: rest => body rest
  | _ => body l

/-- Value of `parseFloat` on a string matching `^-?\d+\.\d+$`, as an exact
rational. -/
def parseDecChars (l : List Char) : Rat :=
  let body := fun (m : List Char) =>
    let a := m.takeWhile Char.isDigit
    let b := (m.dropWhile Char.isDigit).drop 1
    (digitsToNat a : Rat) + (digitsToNat b : Rat) / ((10 : Rat) ^ b.length)
  match l with
  | '-' :: rest => -(body rest)
  | _ => body l

/-- The `tryParseNumber` helper (src/fetcher.js lines 91-95). -/
def tryParseNumber (s : String) : Option Value :=
  if intPat s.toList then some (.int (parseIntChars s.toList))
  else if decPat s.toList then some (.float (parseDecChars s.toList))
  else none

/-- Host date capability: `parseToIso s` models
`new Date(s).toISOString()` on a successfully parsed string (`none` when the
runtime yields an Invalid Date), and `isoUtcToIso` models the same for the
reassembled `date + 'T' + time + 'Z'` string of the fallback branch. -/
structure DateCap where
  parseToIso : String → Option String
  isoUtcToIso : String → Option String

/-- Match of the (unanchored) fallback regexp
`(\d{4}-\d{2}-\d{2})[ T](\d{2}:\d{2}:\d{2})` at the head of a character
list, returning the two capture groups. -/
def dateTimeAt (l : List Char) : Option (String × String) :=
  match l with
  | y1 :: y2 :: y3 :: y4 :: '-' :: m1 :: m2 :: '-' :: d1 :: d2 :: sep ::
      h1 :: h2 :: ':' :: n1 :: n2 :: ':' :: s1 :: s2 :: _ =>
    if ([y1, y2, y3, y4, m1, m2, d1, d2, h1, h2, n1, n2, s1, s2].all Char.isDigit)
        && (sep = ' ' || sep = 'T') then
      some (String.mk [y1, y2, y3, y4, '-', m1, m2, '-', d1, d2],
            String.mk [h1, h2, ':', n1, n2, ':', s1, s2])
    else none
  | _ => none

/-- Leftmost match of the fallback date regexp anywhere in the list. -/
def scanDateTime : List Char → Option (String × String)
  | [] => none
  | c :: rest =>
    match dateTimeAt (c :: rest) with
    | some r => some r
    | none => scanDateTime rest

/-- The `tryParseDate` helper (src/fetcher.js lines 97-104).  The fallback
branch calls `.toISOString()` on the reassembled date; when the host rejects
even that, the real code throws a `RangeError`, modelled as `.error`. -/
def tryParseDate (D : DateCap) (s : String) : Except Unit (Option String) :=
  if jsTrim s = "" then .ok none
  else
    match D.parseToIso s with
    | some iso => .ok (some iso)
    | none =>
      match scanDateTime s.toList with
      | some (d, t) =>
        match D.isoUtcToIso (d ++ "T" ++ t ++ "Z") with
        | some iso => .ok (some iso)
        | none => .error ()
      | none => .ok none

/-- The two coercion toggles of the parsing configuration. -/
structure Opts where
  parseNumbers : Bool
  parseDates : Bool

/-- `parseValue` (src/fetcher.js lines 106-122).  `raw` is the cell text
(`none` models a null/undefined argument).  ASCII lowercasing is faithful
here: the result is only compared with `"yes"`/`"no"`, and no character
outside ASCII lowercases to an ASCII letter. -/
def parseValue (D : DateCap) (opts : Opts) (raw : Option String) : Except Unit Value :=
  match raw with
  | none => .ok .null
  | some raw =>
    let s := jsTrim raw
    if s = "" then .ok .null
    else
      let low := String.mk (s.toList.map asciiLower)
      if low = "yes" then .ok (.bool true)
      else if low = "no" then .ok (.bool false)
      else
        match (if opts.parseNumbers then tryParseNumber s else none) with
        | some n => .ok n
        | none =>
          if opts.parseDates then
            match tryParseDate D s with
            | .error e => .error e
            | .ok (some iso) =>
              if iso ≠ "" then .ok (.str iso) else .ok (.str s)
            | .ok none => .ok (.str s)
          else .ok (.str s)

/-! ## Records and the deduplicating aggregation loop
(src/fetcher.js lines 308-311 and 368-382) -/

/-- A parsed match record: a JavaScript object as an insertion-ordered
association list with unique keys. -/
abbrev Record := List (String × Value)

/-- JavaScript property read `r[k]` on a record (`none` = `undefined`).
Record keys never collide with `Object.prototype` properties: every key is
either a `CANONICAL_MAP` value, `match_id`, `match_title`, or a normalized
key that missed the map — and a normalized key that is an
`Object.prototype` property name would have been replaced by the inherited
object's coercion at line 154 before being used as a key. -/
def jsGet (r : Record) (k : String) : Option Value :=
  (r.find? (fun p => p.1 = k)).map (fun p => p.2)

/-- JavaScript property write `r[k] = v`: overwrite the existing binding in
place, else append. -/
def jsSet (r : Record) (k : String) (v : Value) : Record :=
  match r with
  | [] => [(k, v)]
  | (k', v') :: t => if k' = k then (k, v) :: t else (k', v') :: jsSet t k v

/-- One table block of a page, as produced by `extractTablesFromHtml`
(the id captured from the `Match <digits>` header, `none` when absent)
combined with the `parseMatchHtml` result for the block's HTML
(`none` when the fragment has no table).  The DOM parsing itself is the
external capability of spec section 9. -/
structure Block where
  id : Option String
  parsed : Option Record

/-- The aggregator's state: admitted records in admission order, plus the
seen-set of dedup keys. -/
structure AggState where
  results : List Record
  seen : List String

/-- Truthiness of the optional block id (`t.id` is `null` or a non-empty
digit string). -/
def truthyId : Option String → Bool
  | none => false
  | some s => decide (s ≠ "")

/-- The id injection of src/fetcher.js line 376:
`if (t.id && !parsed.match_id) parsed.match_id = String(t.id)`. -/
def injectId (b : Block) : Option Record :=
  match b.parsed with
  | none => none
  | some r =>
    if truthyId b.id && !truthyOpt (jsGet r "match_id") then
      some (jsSet r "match_id" (.str (b.id.getD "")))
    else some r

/-- The dedup key of src/fetcher.js line 377 for an (id-injected) record,
given that dedup is on: `'id:' + parsed.match_id` when `match_id` is truthy,
else the empty string, which the code treats as "no key" (`none` here — the
string `'id:' + v` is never empty, so the `Option` model is exact). -/
def runKey (r : Record) : Option String :=
  match jsGet r "match_id" with
  | some v => if truthy v then some ("id:" ++ jsToString v) else none
  | none => none

/-- Admission of one block (src/fetcher.js lines 370-382): skip blocks with
no table, inject the header id, then admit unless dedup is on and the key
was already seen. -/
def admitBlock (dedupe : Bool) (st : AggState) (b : Block) : AggState :=
  match injectId b with
  | none => st
  | some r =>
    match (if dedupe then runKey r else none) with
    | some k =>
      if st.seen.contains k then st
      else { results := st.results ++ [r], seen := st.seen ++ [k] }
    | none => { results := st.results ++ [r], seen := st.seen }

/-- The per-page aggregation loop over all extracted tables. -/
def processBlocks (dedupe : Bool) (st : AggState) (blocks : List Block) : AggState :=
  blocks.foldl (admitBlock dedupe) st

/-! ## The retrying fetch (src/fetcher.js lines 313-351) -/

/-- Decoded JSON page response: `success` flag, the table blocks extracted
from the `html` payload (DOM parsing being the external capability), and the
continuation token. -/
structure PageJson where
  success : Bool
  tables : List Block
  continue_token : Option String

/-- Outcome of one `fetch` call: a rejected promise (network error), or a
response with an HTTP status and a body; the body field carries the result
of `JSON.parse` on the response text (`.error` = parse exception, `.ok none`
= the JSON literal `null`). -/
inductive FetchOutcome where
  | netErr : FetchOutcome
  | resp (status : Nat) (body : Except Unit (Option PageJson)) : FetchOutcome

/-- Errors that can escape `safeFetch`. -/
inductive SFErr where
  | httpError (status : Nat)
  | netError
  | parseError
  | unreachable

/-- The retry loop of `safeFetch`.  `attempt` starts at 0 and every iteration
increases it by exactly 1 (throttle path and catch path alike), so the
`while (attempt <= maxRetries)` guard admits at most 6 iterations; the
structural `fuel` argument is kept equal to `6 - attempt` and encodes that
guard.  When the guard fails (fuel 0) the code reaches
`throw new Error('unreachable')`. -/
def sfLoop (f : Nat → FetchOutcome) : Nat → Nat → List Nat →
    Except SFErr (Option PageJson) × List Nat
  | 0, _, waits => (.error .unreachable, waits)
  | fuel + 1, attempt, waits =>
    match f attempt with
    | .netErr =>
      if attempt + 1 > 5 then (.error .netError, waits)
      else sfLoop f fuel (attempt + 1) (waits ++ [1000 * 2 ^ attempt])
    | .resp s body =>
      if 200 ≤ s ∧ s ≤ 299 then
        match body with
        | .ok j => (.ok j, waits)
        | .error _ =>
          if attempt + 1 > 5 then (.error .parseError, waits)
          else sfLoop f fuel (attempt + 1) (waits ++ [1000 * 2 ^ attempt])
      else if s = 429 ∨ s = 503 then
        sfLoop f fuel (attempt + 1) (waits ++ [1000 * 2 ^ attempt])
      else if attempt + 1 > 5 then (.error (.httpError s), waits)
      else sfLoop f fuel (attempt + 1) (waits ++ [1000 * 2 ^ attempt])

/-- `safeFetch` for one page: the retry loop from attempt 0, also returning
the list of backoff delays awaited (in ms, in order). -/
def safeFetch (f : Nat → FetchOutcome) : Except SFErr (Option PageJson) × List Nat :=
  sfLoop f 6 0 []

/-! ## The pagination loop (src/fetcher.js lines 353-404) -/

/-- Normalization `json.continue_token || null` of src/fetcher.js line 396:
an absent or empty token becomes `null`. -/
def newTokenOf (j : PageJson) : Option String :=
  match j.continue_token with
  | some t => if t = "" then none else some t
  | none => none

/-- The pagination loop.  `resp page` is the outcome of `safeFetch` for the
given (1-based) page number: `.error` when it threw, otherwise the parsed
JSON (`none` = JSON `null`).  The structural `fuel` equals
`maxPages - page`, encoding the `while (page < cfg.maxPages)` guard.
Returns the final aggregation state and page counter, or `.error` when the
fetch error propagates out of the run. -/
def pageLoop (resp : Nat → Except Unit (Option PageJson)) (dedupe : Bool) :
    Nat → Nat → Option String → AggState → Except Unit (AggState × Nat)
  | 0, page, _, st => .ok (st, page)
  | fuel + 1, page, token, st =>
    let page' := page + 1
    match resp page' with
    | .error _ => .error ()
    | .ok none => .ok (st, page')
    | .ok (some j) =>
      if !j.success then .ok (st, page')
      else
        let st' := processBlocks dedupe st j.tables
        match newTokenOf j with
        | none => .ok (st', page')
        | some t =>
          if some t = token then .ok (st', page')
          else pageLoop resp dedupe fuel page' (some t) st'

/-- The whole fetch-and-aggregate run of `gcpdFetchAndParseAll` up to the
point where the CSV is built: page counter from 0, no token, empty state. -/
def gcpdRun (resp : Nat → Except Unit (Option PageJson)) (dedupe : Bool)
    (maxPages : Nat) : Except Unit (AggState × Nat) :=
  pageLoop resp dedupe maxPages 0 none ⟨[], []⟩

/-! ## CSV serialization (src/fetcher.js lines 177-266) -/

/-- The fixed column order `ORDERED_COLUMNS` (src/fetcher.js lines 178-236). -/
def ORDERED_COLUMNS : List String := [
  "match_id", "match_title", "type", "season_id",
  "match_creation_time", "connection_time", "join_time",
  "joined_after_match_start", "time_in_queue", "match_end_time",
  "time_left_match",
  "game_mode", "map_index", "datacenter", "match_ip", "match_port",
  "match_size", "match_status", "match_duration", "match_flags",
  "match_included_bots",
  "red_team_final_score", "blu_team_final_score", "winning_team",
  "win_reason",
  "party_id_at_join", "team_at_join", "ping_estimate_at_join",
  "result_partyid", "result_team", "result_score", "result_ping",
  "result_player_flags", "result_displayed_rating",
  "result_displayed_rating_change", "result_rank",
  "classes_played", "kills", "deaths", "damage", "healing", "support",
  "score_medal", "kills_medal", "damage_medal", "healing_medal",
  "support_medal",
  "leave_reason"]

/-- Does the cell need CSV quoting: the regexp test `/[",\n]/`. -/
def needsQuote (s : String) : Bool :=
  s.toList.any (fun c => c = '"' || c = ',' || c = '\n')

/-- The global replace `/"/g → '""'`. -/
def doubleQuotes : List Char → List Char
  | [] => []
  | c :: t => if c = '"' then '"' :: '"' :: doubleQuotes t else c :: doubleQuotes t

/-- The string a cell value is serialized to before escaping: values of
`typeof` `'object'` (null never reaches here, arrays, plain objects) go
through `JSON.stringify`, the rest through `String(v)`. -/
def stringifyCell : Value → String
  | .bool b => jsToString (.bool b)
  | .int n => jsToString (.int n)
  | .float q => jsToString (.float q)
  | .str s => s
  | v => jsonStringify v

/-- The per-cell escape helper `esc` of `buildCsv` (src/fetcher.js lines
251-255): null/undefined to the empty field; quote-wrap with doubled inner
quotes when the text contains a double quote, comma or newline. -/
def esc (v : Option Value) : String :=
  match v with
  | none => ""
  | some .null => ""
  | some v =>
    let s := stringifyCell v
    if needsQuote s then "\"" ++ String.mk (doubleQuotes s.toList) ++ "\"" else s

/-- Collection of the "extra" keys (src/fetcher.js lines 240-248): keys of
some record that are neither known fixed columns nor reserved (leading
underscore), first-occurrence order, deduplicated (the JS `Set`). -/
def extrasOf (rows : List Record) (known : List String) : List String :=
  rows.foldl
    (fun ex r =>
      (r.map Prod.fst).foldl
        (fun ex k =>
          if known.contains k || k.startsWith "_" || ex.contains k then ex
          else ex ++ [k])
        ex)
    []

/-- JavaScript `Array.prototype.sort` on distinct strings: lexicographic
(code-unit) order; every key here is ASCII, where code-unit order and
code-point order agree. -/
def jsSortStrings (l : List String) : List String :=
  l.mergeSort (fun a b => decide (a ≤ b))

/-- The serialized output: full text and final header sequence. -/
structure CsvOut where
  csv : String
  headers : List String

/-- `buildCsv` (src/fetcher.js lines 238-266). -/
def buildCsv (rows : List Record) (fixedOrder : List String) : CsvOut :=
  let extras := jsSortStrings (extrasOf rows fixedOrder)
  let headers := fixedOrder ++ extras
  let body := rows.foldl
    (fun csv row =>
      csv ++ String.intercalate "," (headers.map (fun h => esc (jsGet row h))) ++ "\n")
    (String.intercalate "," headers ++ "\n")
  ⟨body, headers⟩

/-! ## Auxiliary definitions used by the verification

Concrete capabilities and predicates the theorems below refer to. -/

/-- Characters that can appear in a `normalizeKey` output: lowercase ASCII
letters, digits, underscore. -/
def isLowerOut (c : Char) : Bool :=
  (97 ≤ c.toNat ∧ c.toNat ≤ 122) ∨ (48 ≤ c.toNat ∧ c.toNat ≤ 57) ∨ c.toNat = 95

/-- A sequence of page responses whose third response repeats the second
response's token; a fourth page would be a fetch error, proving the loop
never requests it. -/
def stallResp : Nat → Except Unit (Option PageJson) := fun n =>
  if n = 1 then .ok (some ⟨true, [], some "A"⟩)
  else if n = 2 then .ok (some ⟨true, [], some "B"⟩)
  else if n = 3 then .ok (some ⟨true, [], some "B"⟩)
  else .error ()

/-- Coherence of the aggregator state: the dedup key of every admitted
identity-bearing record is in the seen-set. -/
def IdInv (st : AggState) : Prop :=
  ∀ r ∈ st.results, ∀ k, runKey r = some k → k ∈ st.seen

/-- Does this block produce a record with no (truthy) `match_id` after id
injection?  Such records are admitted unconditionally. -/
def noIdBlock (b : Block) : Bool :=
  match injectId b with
  | some r => decide (runKey r = none)
  | none => false

/-- Modelled from the spec: the inverse collapse a standard CSV reader
applies inside a quoted field, turning each doubled double-quote back into
one. -/
def collapseQuotes : List Char → List Char
  | [] => []
  | [c] => [c]
  | c :: c' :: t =>
    if c = '"' ∧ c' = '"' then '"' :: collapseQuotes t
    else c :: collapseQuotes (c' :: t)

/-- Modelled from the spec: a standard CSV reader's treatment of one field —
a field wrapped in double quotes is unwrapped and its doubled quotes
collapsed; anything else is taken verbatim. -/
def unescapeFieldChars (l : List Char) : List Char :=
  match l with
  | '"' :: rest =>
    match rest.getLast? with
    | some '"' => collapseQuotes rest.dropLast
    | _ => l
  | _ => l

/-- Modelled from the spec: standard CSV unescaping of one field. -/
def unescapeCsvField (s : String) : String :=
  String.mk (unescapeFieldChars s.toList)

/-- Date capability of a host whose `new Date(...)` yields an Invalid Date on
every string handed to this run (as browsers do for `"+42"`, `"hello"`). -/
def rejectAllDates : DateCap := ⟨fun _ => none, fun _ => none⟩

/-- The run defaults: `parseDates: true, parseNumbers: true`. -/
def defaultOpts : Opts := ⟨true, true⟩

/-! ## Helper lemmas about characters -/

theorem char_toNat_ofNat (n : Nat) (h : n < 1000) : (Char.ofNat n).toNat = n := by
  have hv : n.isValidChar := Or.inl (by omega)
  simp [Char.ofNat, hv, Char.ofNatAux, Char.toNat, UInt32.toNat, UInt32.ofNatCore]

theorem asciiLower_of_upper (c : Char) (h1 : 65 ≤ c.toNat) (h2 : c.toNat ≤ 90) :
    (asciiLower c).toNat = c.toNat + 32 := by
  rw [asciiLower, if_pos ⟨h1, h2⟩, char_toNat_ofNat _ (by omega)]

theorem asciiLower_of_not_upper (c : Char) (h : ¬(65 ≤ c.toNat ∧ c.toNat ≤ 90)) :
    asciiLower c = c := by
  rw [asciiLower, if_neg h]

theorem isLowerOut_not_ws (c : Char) (h : isLowerOut c = true) : jsWs c = false := by
  simp [isLowerOut] at h
  simp [jsWs]
  omega

theorem isLowerOut_not_delim (c : Char) (h : isLowerOut c = true) : isDelim c = false := by
  simp [isLowerOut] at h
  simp [isDelim]
  omega

theorem isLowerOut_word (c : Char) (h : isLowerOut c = true) : isWordChar c = true := by
  simp [isLowerOut] at h
  simp [isWordChar]
  omega

theorem isLowerOut_fix_lower (c : Char) (h : isLowerOut c = true) : asciiLower c = c := by
  simp [isLowerOut] at h
  exact asciiLower_of_not_upper c (by omega)

/-! ## Lemmas about the normalization steps -/

theorem mem_collapseRunsAux (p : Char → Bool) (repl : Char) (l : List Char) :
    ∀ (b : Bool), ∀ c ∈ collapseRunsAux p repl b l, c = repl ∨ (c ∈ l ∧ p c = false) := by
  induction l with
  | nil => intro b c hc; simp [collapseRunsAux] at hc
  | cons d rest ih =>
    intro b c hc
    rw [collapseRunsAux] at hc
    by_cases hd : p d = true
    · rw [if_pos hd] at hc
      have step : ∀ x, x ∈ collapseRunsAux p repl true rest →
          c = x → c = repl ∨ (c ∈ d :: rest ∧ p c = false) := by
        intro x hx he
        subst he
        rcases ih true c hx with h | ⟨h1, h2⟩
        · exact Or.inl h
        · exact Or.inr ⟨List.mem_cons_of_mem _ h1, h2⟩
      cases b with
      | true => exact step c hc rfl
      | false =>
        rcases List.mem_cons.mp hc with h | h
        · exact Or.inl h
        · exact step c h rfl
    · rw [if_neg hd] at hc
      rcases List.mem_cons.mp hc with h | h
      · subst h
        exact Or.inr ⟨List.mem_cons_self _ _, Bool.of_not_eq_true hd⟩
      · rcases ih false c h with h2 | ⟨h3, h4⟩
        · exact Or.inl h2
        · exact Or.inr ⟨List.mem_cons_of_mem _ h3, h4⟩

theorem mem_collapseRuns (p : Char → Bool) (repl : Char) (l : List Char) :
    ∀ c ∈ collapseRuns p repl l, c = repl ∨ (c ∈ l ∧ p c = false) :=
  mem_collapseRunsAux p repl l false

theorem collapseRuns_id (p : Char → Bool) (repl : Char) (l : List Char)
    (h : ∀ c ∈ l, p c = false) : collapseRuns p repl l = l := by
  rw [collapseRuns]
  induction l with
  | nil => rw [collapseRunsAux]
  | cons c rest ih =>
    rw [collapseRunsAux, if_neg (by simp [h c (List.mem_cons_self c rest)])]
    rw [ih (fun x hx => h x (List.mem_cons_of_mem _ hx))]

theorem dropWhile_id (p : Char → Bool) (l : List Char)
    (h : ∀ c ∈ l, p c = false) : l.dropWhile p = l := by
  cases l with
  | nil => rfl
  | cons c rest => rw [List.dropWhile_cons, if_neg (by simp [h c (List.mem_cons_self c rest)])]

theorem trimChars_id (l : List Char) (h : ∀ c ∈ l, jsWs c = false) : trimChars l = l := by
  rw [trimChars, dropWhile_id jsWs l h,
    dropWhile_id jsWs l.reverse (fun c hc => h c (List.mem_reverse.mp hc)), List.reverse_reverse]

/-- Every character of a `normalizeKeyChars` output is a lowercase letter, a
digit or an underscore. -/
theorem normalizeKeyChars_chars (l : List Char) :
    ∀ c ∈ normalizeKeyChars l, isLowerOut c = true := by
  intro c hc
  rw [normalizeKeyChars] at hc
  rcases mem_collapseRuns _ _ _ c hc with h | ⟨h1, h2⟩
  · subst h; simp [isLowerOut]
  · rcases List.mem_map.mp h1 with ⟨d, hd, hdc⟩
    have hd4 := List.mem_filter.mp hd
    rcases Bool.or_eq_true_iff.mp hd4.2 with hw | hws
    · by_cases hup : 65 ≤ d.toNat ∧ d.toNat ≤ 90
      · have := asciiLower_of_upper d hup.1 hup.2
        rw [hdc] at this
        simp [isWordChar] at hw
        simp [isLowerOut]
        omega
      · rw [asciiLower_of_not_upper d hup] at hdc
        subst hdc
        simp [isWordChar] at hw
        simp [isLowerOut]
        omega
    · have : asciiLower d = d := by
        apply asciiLower_of_not_upper
        simp [jsWs] at hws
        omega
      rw [this] at hdc
      subst hdc
      rw [hws] at h2
      exact absurd h2 (by simp)

/-- `normalizeKeyChars` fixes every list of output-class characters. -/
theorem normalizeKeyChars_id_on_out (l : List Char) (h : ∀ c ∈ l, isLowerOut c = true) :
    normalizeKeyChars l = l := by
  rw [normalizeKeyChars]
  have e1 : l.map (fun c => if c.toNat = 160 then ' ' else c) = l := by
    rw [List.map_congr_left (fun c hc => ?_), List.map_id']
    have := h c hc
    simp [isLowerOut] at this
    rw [if_neg (by omega)]
  rw [e1]
  rw [trimChars_id l (fun c hc => isLowerOut_not_ws c (h c hc))]
  rw [collapseRuns_id isDelim ' ' l (fun c hc => isLowerOut_not_delim c (h c hc))]
  have e4 : l.filter (fun c => isWordChar c || jsWs c) = l :=
    List.filter_eq_self.mpr (fun c hc => by rw [isLowerOut_word c (h c hc)]; rfl)
  rw [e4]
  have e5 : l.map asciiLower = l := by
    rw [List.map_congr_left (fun c hc => isLowerOut_fix_lower c (h c hc)), List.map_id']
  rw [e5]
  exact collapseRuns_id jsWs '_' l (fun c hc => isLowerOut_not_ws c (h c hc))

/-- Claim C8: `normalizeKey` is idempotent — for every label string `L`,
`normalizeKey (normalizeKey L) = normalizeKey L`. -/
theorem normalizeKey_idem (L : String) : normalizeKey (normalizeKey L) = normalizeKey L := by
  show String.mk (normalizeKeyChars (String.mk (normalizeKeyChars L.toList)).toList)
      = String.mk (normalizeKeyChars L.toList)
  rw [show (String.mk (normalizeKeyChars L.toList)).toList = normalizeKeyChars L.toList from rfl]
  rw [normalizeKeyChars_id_on_out _ (normalizeKeyChars_chars L.toList)]

/-- Claim C3: when every fetch attempt returns HTTP 500, `safeFetch` raises
the fatal error (the re-thrown `HTTP 500`) after exactly 5 retries beyond
the initial attempt, and the backoff delay awaited before retry `k`
(0-based) is `1000 * 2 ^ k` ms, i.e. 1000, 2000, 4000, 8000, 16000. -/
theorem safeFetch_always500_fatal (f : Nat → FetchOutcome)
    (body : Except Unit (Option PageJson)) (h : ∀ k, f k = .resp 500 body) :
    safeFetch f = (.error (.httpError 500), (List.range 5).map (fun k => 1000 * 2 ^ k)) := by
  simp [safeFetch, sfLoop, h]
  decide

/-- Witness for claim C3 at the concrete always-500 fetch capability. -/
theorem safeFetch_always500_fatal_witness :
    safeFetch (fun _ => .resp 500 (.error ())) =
      (.error (.httpError 500), [1000, 2000, 4000, 8000, 16000]) := by
  rw [safeFetch_always500_fatal _ (.error ()) (fun _ => rfl)]
  rfl

/-- Claim C4 (code bug): a fetch capability that returns HTTP 429 on every
attempt is NOT recovered locally forever — the throttle path shares the
`attempt <= maxRetries` budget with the transient-error path, so after six
throttled responses (with backoffs 1000..32000 ms) the `while` guard fails
and the code reaches its own `throw new Error('unreachable')`, surfacing an
error to the caller.  The spec ("recovered locally via backoff, never
surfaced") and the code's own assertion that this line is unreachable are
both contradicted. -/
theorem safeFetch_throttle_unreachable :
    safeFetch (fun _ => .resp 429 (.ok none)) =
      (.error .unreachable, [1000, 2000, 4000, 8000, 16000, 32000]) := rfl

/-- Claim C2: the pagination loop ends without raising an error when, after a
page, (a) no continuation token is returned, (b) the returned token equals
the previous token, (c) the page's success flag is false (in which case the
page contributes zero records — the state is returned untouched), or (d) the
page counter reaches `maxPages` (fuel 0); a `null` JSON body also stops the
loop without error. -/
theorem pageLoop_termination (resp : Nat → Except Unit (Option PageJson)) (dedupe : Bool)
    (fuel page : Nat) (token : Option String) (st : AggState) (j : PageJson) :
    (pageLoop resp dedupe 0 page token st = .ok (st, page))
  ∧ (resp (page + 1) = .ok none →
      pageLoop resp dedupe (fuel + 1) page token st = .ok (st, page + 1))
  ∧ (resp (page + 1) = .ok (some j) → j.success = false →
      pageLoop resp dedupe (fuel + 1) page token st = .ok (st, page + 1))
  ∧ (resp (page + 1) = .ok (some j) → j.success = true → newTokenOf j = none →
      pageLoop resp dedupe (fuel + 1) page token st
        = .ok (processBlocks dedupe st j.tables, page + 1))
  ∧ (∀ t, resp (page + 1) = .ok (some j) → j.success = true → newTokenOf j = some t →
      token = some t →
      pageLoop resp dedupe (fuel + 1) page token st
        = .ok (processBlocks dedupe st j.tables, page + 1)) := by
  refine ⟨rfl, ?_, ?_, ?_, ?_⟩
  · intro h1
    rw [pageLoop, h1]
  · intro h1 h2
    rw [pageLoop, h1]
    simp [h2]
  · intro h1 h2 h3
    rw [pageLoop, h1]
    simp [h2, h3]
  · intro t h1 h2 h3 h4
    rw [pageLoop, h1]
    simp [h2, h3, h4]

/-- Witness for claim C2: on `stallResp` the run stops after the third page,
without error, by stall detection. -/
theorem pageLoop_termination_witness :
    gcpdRun stallResp true 2000 = .ok (⟨[], []⟩, 3) := by
  have h := (pageLoop_termination stallResp true 1997 2 (some "B") ⟨[], []⟩
    ⟨true, [], some "B"⟩).2.2.2.2 "B" rfl rfl rfl rfl
  calc gcpdRun stallResp true 2000
      = pageLoop stallResp true 1998 2 (some "B") ⟨[], []⟩ := rfl
    _ = .ok (processBlocks true ⟨[], []⟩ [], 3) := h
    _ = .ok (⟨[], []⟩, 3) := rfl
/-! ## The deduplication invariant (claim C1) -/

/-- Fold invariant for the aggregation loop with dedup enabled: coherence is
preserved, each dedup key ends up on at most one admitted record (at most
`max` the count already present), and records without a `match_id` are all
admitted, never deduplicated against each other. -/
theorem processBlocks_dedupe_aux (blocks : List Block) : ∀ st : AggState, IdInv st →
    IdInv (processBlocks true st blocks)
  ∧ (∀ k : String,
      (processBlocks true st blocks).results.countP (fun r => decide (runKey r = some k))
        ≤ max (st.results.countP (fun r => decide (runKey r = some k))) 1)
  ∧ ((processBlocks true st blocks).results.countP (fun r => decide (runKey r = none))
      = st.results.countP (fun r => decide (runKey r = none)) + blocks.countP noIdBlock) := by
  induction blocks with
  | nil =>
    intro st h
    exact ⟨h, fun k => Nat.le_max_left _ _, by simp [processBlocks]⟩
  | cons b bs ih =>
    intro st hst
    have step : processBlocks true st (b :: bs) = processBlocks true (admitBlock true st b) bs := rfl
    rw [step]
    cases hinj : injectId b with
    | none =>
      have ha : admitBlock true st b = st := by simp [admitBlock, hinj]
      have hb : noIdBlock b = false := by simp [noIdBlock, hinj]
      rw [ha]
      refine ⟨(ih st hst).1, (ih st hst).2.1, ?_⟩
      rw [(ih st hst).2.2, List.countP_cons, hb]
      simp
    | some r =>
      cases hk : runKey r with
      | none =>
        have ha : admitBlock true st b = ⟨st.results ++ [r], st.seen⟩ := by
          simp [admitBlock, hinj, hk]
        have hb : noIdBlock b = true := by simp [noIdBlock, hinj, hk]
        rw [ha]
        have hst' : IdInv ⟨st.results ++ [r], st.seen⟩ := by
          intro r' hr' k hkk
          rcases List.mem_append.mp hr' with h | h
          · exact hst r' h k hkk
          · rw [List.mem_singleton.mp h] at hkk
            rw [hk] at hkk
            cases hkk
        obtain ⟨i1, i2, i3⟩ := ih _ hst'
        refine ⟨i1, ?_, ?_⟩
        · intro k
          refine (i2 k).trans ?_
          have : (st.results ++ [r]).countP (fun r => decide (runKey r = some k))
              = st.results.countP (fun r => decide (runKey r = some k)) := by
            rw [List.countP_append, List.countP_cons]
            simp [hk]
          simp only [this]
          exact le_refl _
        · rw [i3]
          show (st.results ++ [r]).countP (fun r => decide (runKey r = none)) + _ = _
          rw [List.countP_append, List.countP_cons, List.countP_cons, hb]
          simp [hk]
          omega
      | some k0 =>
        have hb : noIdBlock b = false := by simp [noIdBlock, hinj, hk]
        cases hseen : st.seen.contains k0 with
        | true =>
          have ha : admitBlock true st b = st := by
            simp [admitBlock, hinj, hk]
            intro h
            exact absurd (by simpa using hseen) h
          rw [ha]
          refine ⟨(ih st hst).1, (ih st hst).2.1, ?_⟩
          rw [(ih st hst).2.2, List.countP_cons, hb]
          simp
        | false =>
          have ha : admitBlock true st b = ⟨st.results ++ [r], st.seen ++ [k0]⟩ := by
            simp [admitBlock, hinj, hk]
            intro h
            exact absurd h (by simpa using hseen)
          rw [ha]
          have hnotmem : k0 ∉ st.seen := by simpa using hseen
          have hzero : st.results.countP (fun r => decide (runKey r = some k0)) = 0 := by
            rw [List.countP_eq_zero]
            intro r' hr'
            simp only [decide_eq_true_eq]
            intro hkk
            exact hnotmem (hst r' hr' k0 hkk)
          have hst' : IdInv ⟨st.results ++ [r], st.seen ++ [k0]⟩ := by
            intro r' hr' k hkk
            rcases List.mem_append.mp hr' with h | h
            · exact List.mem_append_left _ (hst r' h k hkk)
            · rw [List.mem_singleton.mp h] at hkk
              rw [hk] at hkk
              cases hkk
              exact List.mem_append_right _ (List.mem_singleton_self _)
          obtain ⟨i1, i2, i3⟩ := ih _ hst'
          refine ⟨i1, ?_, ?_⟩
          · intro k
            refine (i2 k).trans ?_
            by_cases hkk0 : k = k0
            · subst hkk0
              have : (st.results ++ [r]).countP (fun r => decide (runKey r = some k)) = 1 := by
                rw [List.countP_append, hzero, List.countP_cons]
                simp [hk]
              rw [this]
              simp
            · have : (st.results ++ [r]).countP (fun r => decide (runKey r = some k))
                  = st.results.countP (fun r => decide (runKey r = some k)) := by
                rw [List.countP_append, List.countP_cons]
                simp [hk, Ne.symm hkk0]
              rw [this]
          · rw [i3]
            show (st.results ++ [r]).countP (fun r => decide (runKey r = none)) + _ = _
            rw [List.countP_append, List.countP_cons, List.countP_cons, hb]
            simp [hk]

/-- Claim C1 (amended): with dedup enabled, for every dedup key the
aggregation loop admits at most one record carrying it — at most one record
per TRUTHY `match_id` (the guard at src/fetcher.js line 377 is
`cfg.dedupe && parsed.match_id`, a truthiness test, not a null test) —
while every record whose `match_id` is absent or falsy is admitted
unconditionally: the count of admitted id-less records equals the count of
blocks producing one, so such records are never deduplicated against each
other. -/
theorem dedupe_admits_at_most_one (blocks : List Block) :
    (∀ k : String, (processBlocks true ⟨[], []⟩ blocks).results.countP
        (fun r => decide (runKey r = some k)) ≤ 1)
  ∧ ((processBlocks true ⟨[], []⟩ blocks).results.countP (fun r => decide (runKey r = none))
      = blocks.countP noIdBlock) := by
  have h := processBlocks_dedupe_aux blocks ⟨[], []⟩ (by intro r hr; simp at hr)
  exact ⟨fun k => by simpa using h.2.1 k, by simpa using h.2.2⟩

/-- Witness for claim C1: two table blocks both headed `Match 100` survive
as a single record with `match_id = "100"`. -/
theorem dedupe_admits_at_most_one_witness :
    ((processBlocks true ⟨[], []⟩ [⟨some "100", some []⟩, ⟨some "100", some []⟩]).results.countP
        (fun r => decide (runKey r = some "id:100")) ≤ 1)
  ∧ (processBlocks true ⟨[], []⟩ [⟨some "100", some []⟩, ⟨some "100", some []⟩]).results
      = [[("match_id", Value.str "100")]] :=
  ⟨(dedupe_admits_at_most_one [⟨some "100", some []⟩, ⟨some "100", some []⟩]).1 "id:100", rfl⟩

/-- Counterexample to claim C1 as stated: two parsed records carrying the
identical NON-NULL `match_id` value 0 — as produced by two header-less
tables each with a row `Match Id` → `0` (`"match_id"` is not a
`CANONICAL_MAP` entry, so the key passes through, and with no `Match N`
header there is no id injection) — are both admitted.  The dedup guard at
src/fetcher.js line 377 is `cfg.dedupe && parsed.match_id`, a truthiness
test: the number 0 is non-null but falsy, so neither record receives a
dedup key and both enter the results. -/
theorem dedupe_nonnull_counterexample :
    (processBlocks true ⟨[], []⟩
        [⟨none, some [("match_id", Value.int 0)]⟩,
         ⟨none, some [("match_id", Value.int 0)]⟩]).results
      = [[("match_id", Value.int 0)], [("match_id", Value.int 0)]]
  ∧ jsGet [("match_id", Value.int 0)] "match_id" = some (Value.int 0)
  ∧ Value.int 0 ≠ Value.null :=
  ⟨rfl, rfl, fun h => Value.noConfusion h⟩

/-! ## Canonical map claims (C9, C10) -/

/-- Every own entry of `CANONICAL_MAP` maps a key to itself, and no value is
the empty (falsy) string. -/
theorem canonical_entries : ∀ p ∈ CANONICAL_MAP, p.2 = p.1 ∧ p.2 ≠ "" := by decide

/-- Claim C9 (code bug): the normalized key `"constructor"` is not an own
property of `CANONICAL_MAP`, yet `CANONICAL_MAP['constructor']` finds the
truthy inherited `Object.prototype.constructor`, so the canonicalization
step `cfg.canonicalMap[keyNorm] || keyNorm` returns that built-in function
instead of passing the key through unchanged. -/
theorem canonicalize_constructor_leak :
    canonicalizeKey "constructor" = .builtinFn "constructor" ∧
    PropLookup.builtinFn "constructor" ≠ PropLookup.str "constructor" :=
  ⟨rfl, fun h => PropLookup.noConfusion h⟩

/-- Claim C10: on every key present in the canonical map the canonicalization
step is the identity, so the normalize-then-canonicalize pipeline coincides
with `normalizeKey` alone on the map's domain. -/
theorem canonicalMap_identity (label : String)
    (h : (CANONICAL_MAP.find? (fun p => p.1 = normalizeKey label)).isSome = true) :
    canonicalizeKey (normalizeKey label) = .str (normalizeKey label) := by
  obtain ⟨p, hp⟩ := Option.isSome_iff_exists.mp h
  have hmem := List.mem_of_find?_eq_some hp
  have hpred : p.1 = normalizeKey label := by simpa using List.find?_some hp
  obtain ⟨hident, hne⟩ := canonical_entries p hmem
  rw [canonicalizeKey, canonMapGet, hp]
  simp [propTruthy, hne, hident, hpred]

/-- Witness for claim C10 at the label `"Kills"` (normalized: `"kills"`,
which the map carries). -/
theorem canonicalMap_identity_witness :
    ((CANONICAL_MAP.find? (fun p => p.1 = normalizeKey "Kills")).isSome = true)
  ∧ canonicalizeKey (normalizeKey "Kills") = .str (normalizeKey "Kills") :=
  ⟨by rfl, canonicalMap_identity "Kills" (by rfl)⟩

/-! ## CSV escaping round-trip (claim C7) -/

theorem collapseQuotes_cons_ne (c : Char) (rest : List Char) (h : ¬c = '"') :
    collapseQuotes (c :: rest) = c :: collapseQuotes rest := by
  cases rest with
  | nil => rfl
  | cons d t => exact if_neg (fun hp => h hp.1)

theorem collapseQuotes_pair (t : List Char) :
    collapseQuotes ('"' :: '"' :: t) = '"' :: collapseQuotes t :=
  if_pos ⟨rfl, rfl⟩

/-- Collapsing doubled quotes undoes doubling them. -/
theorem collapse_double (l : List Char) : collapseQuotes (doubleQuotes l) = l := by
  induction l with
  | nil => rfl
  | cons c t ih =>
    rw [doubleQuotes]
    by_cases hc : c = '"'
    · rw [if_pos hc, collapseQuotes_pair, ih, hc]
    · rw [if_neg hc, collapseQuotes_cons_ne c _ hc, ih]

/-- A quote-wrapped, quote-doubled field reads back as the original text. -/
theorem unescape_quote_wrap (s : String) :
    unescapeCsvField ("\"" ++ String.mk (doubleQuotes s.toList) ++ "\"") = s := by
  have htl : ("\"" ++ String.mk (doubleQuotes s.toList) ++ "\"").toList
      = '"' :: (doubleQuotes s.toList ++ ['"']) := by
    simp [String.toList]
  rw [unescapeCsvField, htl]
  rw [show unescapeFieldChars ('"' :: (doubleQuotes s.toList ++ ['"']))
      = match (doubleQuotes s.toList ++ ['"']).getLast? with
        | some '"' => collapseQuotes (doubleQuotes s.toList ++ ['"']).dropLast
        | _ => '"' :: (doubleQuotes s.toList ++ ['"']) from rfl]
  rw [List.getLast?_concat, List.dropLast_concat, collapse_double]
  cases s
  rfl

/-- On every non-null value that needs quoting, `esc` produces exactly the
quote-wrapped, quote-doubled serialization. -/
theorem esc_some_quote (v : Value) (hv : v ≠ .null) (hq : needsQuote (stringifyCell v) = true) :
    esc (some v) = "\"" ++ String.mk (doubleQuotes (stringifyCell v).toList) ++ "\"" := by
  cases v with
  | null => exact absurd rfl hv
  | bool b => exact if_pos hq
  | int n => exact if_pos hq
  | float q => exact if_pos hq
  | str s => exact if_pos hq
  | arr l => exact if_pos hq
  | obj fs => exact if_pos hq

/-- Claim C7: the per-cell escape maps null and missing values to the empty
field, serializes non-scalar values through the compact `JSON.stringify`
form, and on any value whose serialization contains a double quote, comma
or newline, escaping followed by standard CSV unescaping returns the
original stringified value. -/
theorem esc_contract :
    esc none = "" ∧ esc (some .null) = ""
  ∧ (∀ l, stringifyCell (.arr l) = jsonStringify (.arr l))
  ∧ (∀ fs, stringifyCell (.obj fs) = jsonStringify (.obj fs))
  ∧ (∀ v : Value, v ≠ .null → needsQuote (stringifyCell v) = true →
      unescapeCsvField (esc (some v)) = stringifyCell v) := by
  refine ⟨rfl, rfl, fun l => rfl, fun fs => rfl, ?_⟩
  intro v hv hq
  rw [esc_some_quote v hv hq]
  exact unescape_quote_wrap _

/-- Witness for claim C7 on the cell text `a,b"c`. -/
theorem esc_contract_witness :
    needsQuote (stringifyCell (.str "a,b\"c")) = true
  ∧ esc (some (.str "a,b\"c")) = "\"a,b\"\"c\""
  ∧ unescapeCsvField (esc (some (.str "a,b\"c"))) = "a,b\"c" :=
  ⟨by decide, by rfl,
    esc_contract.2.2.2.2 (.str "a,b\"c") (fun h => Value.noConfusion h) (by decide)⟩

/-! ## The value-parsing contract (claim C5) -/

theorem mk_toList (s : String) : String.mk s.toList = s := by cases s; rfl

/-- Bridge from the decidable `Char.isDigit` to its numeric reading. -/
theorem isDigit_toNat (c : Char) (h : c.isDigit = true) : 48 ≤ c.toNat ∧ c.toNat ≤ 57 := by
  simp [Char.isDigit, Char.le_def] at h
  exact ⟨h.1, h.2⟩

/-- A string matching `^-?\d+$` consists of minus signs and digits only
(stated with the dot allowed too, to share the downstream lemma). -/
theorem intPat_chars (l : List Char) (h : intPat l = true) :
    ∀ c ∈ l, c.toNat = 45 ∨ c.toNat = 46 ∨ (48 ≤ c.toNat ∧ c.toNat ≤ 57) := by
  unfold intPat at h
  split at h
  · next rest =>
    intro c hc
    rcases List.mem_cons.mp hc with he | hm
    · left; rw [he]; rfl
    · right; right
      exact isDigit_toNat c (List.all_eq_true.mp (Bool.and_elim_right h) c hm)
  · intro c hc
    right; right
    exact isDigit_toNat c (List.all_eq_true.mp (Bool.and_elim_right h) c hc)

/-- A string matching `^-?\d+\.\d+$` consists of minus, dot and digits. -/
theorem decPat_chars (l : List Char) (h : decPat l = true) :
    ∀ c ∈ l, c.toNat = 45 ∨ c.toNat = 46 ∨ (48 ≤ c.toNat ∧ c.toNat ≤ 57) := by
  have body : ∀ (m : List Char),
      (decide (m.takeWhile Char.isDigit ≠ []) &&
        (match m.dropWhile Char.isDigit with
         | '.' :: c => decide (c ≠ []) && c.all Char.isDigit
         | _ => false)) = true →
      ∀ c ∈ m, c.toNat = 46 ∨ (48 ≤ c.toNat ∧ c.toNat ≤ 57) := by
    intro m hm c hc
    have hsplit := List.takeWhile_append_dropWhile (p := Char.isDigit) (l := m)
    have hb := Bool.and_elim_right hm
    rcases List.mem_append.mp (by rw [hsplit]; exact hc) with htk | hdr
    · exact Or.inr (isDigit_toNat c (List.mem_takeWhile_imp htk))
    · split at hb
      · next cs heq =>
        rw [heq] at hdr
        rcases List.mem_cons.mp hdr with he | hm2
        · left; rw [he]; rfl
        · exact Or.inr (isDigit_toNat c (List.all_eq_true.mp (Bool.and_elim_right hb) c hm2))
      · exact absurd hb (by simp)
  unfold decPat at h
  split at h
  · next rest =>
    intro c hc
    rcases List.mem_cons.mp hc with he | hm
    · left; rw [he]; rfl
    · rcases body rest h c hm with h1 | h2
      · exact Or.inr (Or.inl h1)
      · exact Or.inr (Or.inr h2)
  · intro c hc
    rcases body l h c hc with h1 | h2
    · exact Or.inr (Or.inl h1)
    · exact Or.inr (Or.inr h2)

/-- Strings made of minus/dot/digit characters are fixed by lowercasing and
are neither `"yes"` nor `"no"`, so the yes/no checks cannot intercept a
numeric string. -/
theorem num_chars_fix (l : List Char)
    (h : ∀ c ∈ l, c.toNat = 45 ∨ c.toNat = 46 ∨ (48 ≤ c.toNat ∧ c.toNat ≤ 57)) :
    l.map asciiLower = l ∧ String.mk l ≠ "yes" ∧ String.mk l ≠ "no" := by
  refine ⟨?_, ?_, ?_⟩
  · rw [List.map_congr_left (fun c hc => asciiLower_of_not_upper c ?_), List.map_id']
    have := h c hc
    omega
  · intro he
    have hl : l = ['y', 'e', 's'] := congrArg String.toList he
    have h2 := h 'y' (by rw [hl]; exact List.mem_cons_self _ _)
    rw [show ('y').toNat = 121 from rfl] at h2
    omega
  · intro he
    have hl : l = ['n', 'o'] := congrArg String.toList he
    have h2 := h 'n' (by rw [hl]; exact List.mem_cons_self _ _)
    rw [show ('n').toNat = 110 from rfl] at h2
    omega

/-- Claim C5 (amended): the value-parsing contract of `parseValue`.  Null and
empty/whitespace-only input give `null`; case-insensitive yes/no give
booleans before numeric and date parsing and regardless of the flags; with
`parseNumbers` on, strings matching the optional-MINUS-sign integer pattern
`^-?\d+$` parse as integers and strings matching `^-?\d+\.\d+$` parse as
floating point — a leading plus sign is not accepted by either pattern; when
no rule applies the trimmed original string is returned. -/
theorem parseValue_contract (D : DateCap) (o : Opts) (raw : String) :
    (parseValue D o none = .ok .null)
  ∧ (jsTrim raw = "" → parseValue D o (some raw) = .ok .null)
  ∧ (String.mk ((jsTrim raw).toList.map asciiLower) = "yes" →
      parseValue D o (some raw) = .ok (.bool true))
  ∧ (String.mk ((jsTrim raw).toList.map asciiLower) = "no" →
      parseValue D o (some raw) = .ok (.bool false))
  ∧ (o.parseNumbers = true → intPat (jsTrim raw).toList = true →
      parseValue D o (some raw) = .ok (.int (parseIntChars (jsTrim raw).toList)))
  ∧ (o.parseNumbers = true → intPat (jsTrim raw).toList = false →
      decPat (jsTrim raw).toList = true →
      parseValue D o (some raw) = .ok (.float (parseDecChars (jsTrim raw).toList)))
  ∧ (jsTrim raw ≠ "" →
      String.mk ((jsTrim raw).toList.map asciiLower) ≠ "yes" →
      String.mk ((jsTrim raw).toList.map asciiLower) ≠ "no" →
      (o.parseNumbers = true → tryParseNumber (jsTrim raw) = none) →
      (o.parseDates = true → tryParseDate D (jsTrim raw) = .ok none) →
      parseValue D o (some raw) = .ok (.str (jsTrim raw))) := by
  refine ⟨rfl, ?_, ?_, ?_, ?_, ?_, ?_⟩
  · intro h
    simp only [parseValue]
    rw [if_pos h]
  · intro h
    have hne : jsTrim raw ≠ "" := by
      intro he
      rw [he] at h
      exact absurd h (by decide)
    simp only [parseValue]
    rw [if_neg hne, if_pos h]
  · intro h
    have hne : jsTrim raw ≠ "" := by
      intro he
      rw [he] at h
      exact absurd h (by decide)
    have hyes : String.mk ((jsTrim raw).toList.map asciiLower) ≠ "yes" := by
      intro he
      rw [he] at h
      exact absurd h (by decide)
    simp only [parseValue]
    rw [if_neg hne, if_neg hyes, if_pos h]
  · intro hn hi
    have hchars := intPat_chars _ hi
    obtain ⟨hmap, hyes, hno⟩ := num_chars_fix _ hchars
    have hne : jsTrim raw ≠ "" := by
      intro he
      rw [he] at hi
      exact absurd hi (by decide)
    rw [mk_toList] at hyes hno
    simp only [parseValue]
    rw [if_neg hne, if_neg (by rw [hmap, mk_toList]; exact hyes),
      if_neg (by rw [hmap, mk_toList]; exact hno), hn]
    simp only [if_true]
    rw [tryParseNumber, if_pos hi]
  · intro hn hi hd
    have hchars := decPat_chars _ hd
    obtain ⟨hmap, hyes, hno⟩ := num_chars_fix _ hchars
    have hne : jsTrim raw ≠ "" := by
      intro he
      rw [he] at hd
      exact absurd hd (by decide)
    rw [mk_toList] at hyes hno
    simp only [parseValue]
    rw [if_neg hne, if_neg (by rw [hmap, mk_toList]; exact hyes),
      if_neg (by rw [hmap, mk_toList]; exact hno), hn]
    simp only [if_true]
    rw [tryParseNumber, if_neg (by simp only [Bool.not_eq_true]; exact hi), if_pos hd]
  · intro hne hyes hno hnum hdate
    simp only [parseValue]
    rw [if_neg hne, if_neg hyes, if_neg hno]
    cases hn : o.parseNumbers with
    | true =>
      rw [if_pos rfl, hnum hn]
      cases hdd : o.parseDates with
      | true => rw [hdate hdd]; rfl
      | false => rfl
    | false =>
      cases hdd : o.parseDates with
      | true => rw [hdate hdd]; rfl
      | false => rfl

/-- Counterexample to claim C5 as stated: `"+42"` matches the claim's
"optional-sign integer pattern" (the claim lists it alongside `"42"` and
`"-7"`), yet the code's regexp `^-?\d+$` accepts a minus sign only, so
`tryParseNumber` rejects it and `parseValue` returns the trimmed string
`"+42"`, not the integer 42.  (No date capability can rescue it: the
number branch already failed before dates are consulted.) -/
theorem parseValue_plus42 :
    tryParseNumber "+42" = none
  ∧ parseValue rejectAllDates defaultOpts (some "+42") = .ok (.str "+42")
  ∧ Value.str "+42" ≠ Value.int 42 :=
  ⟨rfl, rfl, fun h => Value.noConfusion h⟩

/-- Witness for claim C5 on the spec's example table: `"Yes"`, `"no"`,
`"42"`, `"-7"`, `"3.14"`, `""`, `"hello"`. -/
theorem parseValue_contract_witness :
    parseValue rejectAllDates defaultOpts (some " Yes ") = .ok (.bool true)
  ∧ parseValue rejectAllDates defaultOpts (some "no") = .ok (.bool false)
  ∧ parseValue rejectAllDates defaultOpts (some "42") = .ok (.int 42)
  ∧ parseValue rejectAllDates defaultOpts (some "-7") = .ok (.int (-7))
  ∧ parseValue rejectAllDates defaultOpts (some "3.14") = .ok (.float (314 / 100))
  ∧ parseValue rejectAllDates defaultOpts (some "") = .ok .null
  ∧ parseValue rejectAllDates defaultOpts (some "hello") = .ok (.str "hello") := by
  refine ⟨?_, ?_, ?_, ?_, ?_, ?_, ?_⟩
  · exact (parseValue_contract rejectAllDates defaultOpts " Yes ").2.2.1 (by rfl)
  · exact (parseValue_contract rejectAllDates defaultOpts "no").2.2.2.1 (by rfl)
  · exact ((parseValue_contract rejectAllDates defaultOpts "42").2.2.2.2.1 rfl (by rfl)).trans
      (by rfl)
  · exact ((parseValue_contract rejectAllDates defaultOpts "-7").2.2.2.2.1 rfl (by rfl)).trans
      (by rfl)
  · refine ((parseValue_contract rejectAllDates defaultOpts "3.14").2.2.2.2.2.1 rfl (by rfl)
      (by rfl)).trans ?_
    show Except.ok (Value.float (parseDecChars ['3', '.', '1', '4'])) = _
    have hb : parseDecChars ['3', '.', '1', '4']
        = (digitsToNat (List.takeWhile Char.isDigit ['3', '.', '1', '4']) : Rat)
          + (digitsToNat ((List.dropWhile Char.isDigit ['3', '.', '1', '4']).drop 1) : Rat)
            / ((10 : Rat) ^ ((List.dropWhile Char.isDigit ['3', '.', '1', '4']).drop 1).length) :=
      rfl
    rw [hb, show List.takeWhile Char.isDigit ['3', '.', '1', '4'] = ['3'] from rfl,
      show (List.dropWhile Char.isDigit ['3', '.', '1', '4']).drop 1 = ['1', '4'] from rfl,
      show digitsToNat ['3'] = 3 from rfl, show digitsToNat ['1', '4'] = 14 from rfl,
      show (['1', '4'] : List Char).length = 2 from rfl]
    norm_num
  · exact (parseValue_contract rejectAllDates defaultOpts "").2.1 (by rfl)
  · exact ((parseValue_contract rejectAllDates defaultOpts "hello").2.2.2.2.2.2 (by decide)
      (by decide) (by decide) (fun _ => rfl) (fun _ => rfl)).trans (by rfl)

/-! ## CSV header and row layout (claim C6) -/

theorem foldl_append_eq (l : List String) :
    ∀ s : String, l.foldl (· ++ ·) s = s ++ l.foldl (· ++ ·) "" := by
  induction l with
  | nil => intro s; rw [List.foldl_nil, List.foldl_nil, String.append_empty]
  | cons x t ih =>
    intro s
    rw [List.foldl_cons, List.foldl_cons, ih (s ++ x), ih ("" ++ x), String.empty_append,
      String.append_assoc]

theorem join_cons (a : String) (l : List String) :
    String.join (a :: l) = a ++ String.join l := by
  show (a :: l).foldl (· ++ ·) "" = a ++ l.foldl (· ++ ·) ""
  rw [List.foldl_cons, String.empty_append, foldl_append_eq]

theorem csv_fold (g : Record → String) (l : List Record) :
    ∀ init : String, l.foldl (fun acc x => acc ++ g x ++ "\n") init
      = init ++ String.join (l.map (fun x => g x ++ "\n")) := by
  induction l with
  | nil => intro init; rw [List.foldl_nil, List.map_nil, show String.join [] = "" from rfl,
      String.append_empty]
  | cons x t ih =>
    intro init
    rw [List.foldl_cons, List.map_cons, ih, join_cons]
    simp only [String.append_assoc]

/-- Membership in the per-record key fold of `extrasOf`: a key joins the
accumulator exactly when it occurs among the record's keys and passes the
known-column and underscore filters. -/
theorem mem_keyFold (known : List String) (keys : List String) :
    ∀ (ex : List String) (k : String),
      (k ∈ keys.foldl
          (fun ex k => if known.contains k || k.startsWith "_" || ex.contains k then ex
                       else ex ++ [k]) ex
        ↔ k ∈ ex ∨ (k ∈ keys ∧ known.contains k = false ∧ k.startsWith "_" = false)) := by
  induction keys with
  | nil => intro ex k; simp
  | cons k0 t ih =>
    intro ex k
    rw [List.foldl_cons, ih]
    by_cases hg : (known.contains k0 || k0.startsWith "_" || ex.contains k0) = true
    · rw [if_pos hg]
      constructor
      · rintro (h | h)
        · exact Or.inl h
        · exact Or.inr ⟨List.mem_cons_of_mem _ h.1, h.2⟩
      · rintro (h | ⟨hm, h2, h3⟩)
        · exact Or.inl h
        · rcases List.mem_cons.mp hm with he | hm2
          · subst he
            rcases Bool.or_eq_true_iff.mp hg with hg1 | hg2
            · rcases Bool.or_eq_true_iff.mp hg1 with hk | hs
              · rw [hk] at h2; cases h2
              · rw [hs] at h3; cases h3
            · exact Or.inl (by simpa using hg2)
          · exact Or.inr ⟨hm2, h2, h3⟩
    · rw [if_neg hg]
      have hg0 := Bool.of_not_eq_true hg
      rw [Bool.or_eq_false_iff, Bool.or_eq_false_iff] at hg0
      obtain ⟨⟨hk0, hs0⟩, he0⟩ := hg0
      constructor
      · rintro (h | h)
        · rcases List.mem_append.mp h with h2 | h2
          · exact Or.inl h2
          · rw [List.mem_singleton] at h2
            subst h2
            exact Or.inr ⟨List.mem_cons_self _ _, hk0, hs0⟩
        · exact Or.inr ⟨List.mem_cons_of_mem _ h.1, h.2⟩
      · rintro (h | ⟨hm, h2, h3⟩)
        · exact Or.inl (List.mem_append_left _ h)
        · rcases List.mem_cons.mp hm with he | hm2
          · subst he
            exact Or.inl (List.mem_append_right _ (List.mem_singleton_self _))
          · exact Or.inr ⟨hm2, h2, h3⟩

/-- The guarded append of `extrasOf` (the JS `Set`) keeps the accumulator
duplicate-free. -/
theorem nodup_keyFold (known : List String) (keys : List String) :
    ∀ ex : List String, ex.Nodup →
      (keys.foldl
        (fun ex k => if known.contains k || k.startsWith "_" || ex.contains k then ex
                     else ex ++ [k]) ex).Nodup := by
  induction keys with
  | nil => intro ex h; exact h
  | cons k0 t ih =>
    intro ex h
    rw [List.foldl_cons]
    by_cases hg : (known.contains k0 || k0.startsWith "_" || ex.contains k0) = true
    · rw [if_pos hg]; exact ih ex h
    · rw [if_neg hg]
      have hg0 := Bool.of_not_eq_true hg
      rw [Bool.or_eq_false_iff, Bool.or_eq_false_iff] at hg0
      obtain ⟨⟨hk0, hs0⟩, he0⟩ := hg0
      apply ih
      rw [List.nodup_append]
      refine ⟨h, List.nodup_singleton _, ?_⟩
      intro a ha ha2
      rw [List.mem_singleton] at ha2
      subst ha2
      have hc : ex.contains a = true := by simpa using ha
      rw [he0] at hc
      cases hc

/-- Membership across the whole row fold of `extrasOf`. -/
theorem mem_extrasOf_aux (known : List String) (rows : List Record) :
    ∀ (ex : List String) (k : String),
      (k ∈ rows.foldl
          (fun ex r => (r.map Prod.fst).foldl
            (fun ex k => if known.contains k || k.startsWith "_" || ex.contains k then ex
                         else ex ++ [k]) ex) ex
        ↔ k ∈ ex ∨ ((∃ r ∈ rows, k ∈ r.map Prod.fst)
            ∧ known.contains k = false ∧ k.startsWith "_" = false)) := by
  induction rows with
  | nil => intro ex k; simp
  | cons r t ih =>
    intro ex k
    rw [List.foldl_cons, ih, mem_keyFold]
    constructor
    · rintro ((h | h) | h)
      · exact Or.inl h
      · exact Or.inr ⟨⟨r, List.mem_cons_self _ _, h.1⟩, h.2⟩
      · obtain ⟨⟨r2, hr2, hk2⟩, h2, h3⟩ := h
        exact Or.inr ⟨⟨r2, List.mem_cons_of_mem _ hr2, hk2⟩, h2, h3⟩
    · rintro (h | ⟨⟨r2, hr2, hk2⟩, h2, h3⟩)
      · exact Or.inl (Or.inl h)
      · rcases List.mem_cons.mp hr2 with he | hm
        · subst he
          exact Or.inl (Or.inr ⟨hk2, h2, h3⟩)
        · exact Or.inr ⟨⟨r2, hm, hk2⟩, h2, h3⟩

theorem nodup_rowFold (known : List String) (rows : List Record) :
    ∀ ex : List String, ex.Nodup →
      (rows.foldl
        (fun ex r => (r.map Prod.fst).foldl
          (fun ex k => if known.contains k || k.startsWith "_" || ex.contains k then ex
                       else ex ++ [k]) ex) ex).Nodup := by
  induction rows with
  | nil => intro ex h; exact h
  | cons r t ih =>
    intro ex h
    rw [List.foldl_cons]
    exact ih _ (nodup_keyFold known _ ex h)

theorem nodup_extrasOf (known : List String) (rows : List Record) :
    (extrasOf rows known).Nodup :=
  nodup_rowFold known rows [] List.nodup_nil

/-- A key is an extra exactly when some record carries it, it is not a fixed
column, and it does not start with an underscore. -/
theorem mem_extrasOf (known : List String) (rows : List Record) (k : String) :
    k ∈ extrasOf rows known
      ↔ ((∃ r ∈ rows, k ∈ r.map Prod.fst)
          ∧ known.contains k = false ∧ k.startsWith "_" = false) := by
  rw [extrasOf, mem_extrasOf_aux]
  simp

/-- The sort step really sorts (String's linear order is lexicographic on
the character sequence). -/
theorem jsSortStrings_sorted (E : List String) :
    List.Sorted (· ≤ ·) (jsSortStrings E) := by
  have h := @List.sorted_mergeSort String (fun (a b : String) => decide (a ≤ b))
    (fun a b c hab hbc => decide_eq_true (le_trans (of_decide_eq_true hab) (of_decide_eq_true hbc)))
    (fun a b => by
      show (decide (a ≤ b) || decide (b ≤ a)) = true
      rcases le_total a b with h | h
      · rw [decide_eq_true h, Bool.true_or]
      · rw [decide_eq_true h, Bool.or_true])
    E
  exact h.imp (fun hab => of_decide_eq_true hab)

/-- Claim C6: the serialized header is the fixed column order first, in its
exact configured order, followed by the extra keys — those present in some
record, not in the fixed order and not starting with an underscore — sorted
lexicographically and without duplicates; the output text is the header row
followed by one comma-joined, newline-terminated row per record, in
admission order. -/
theorem buildCsv_contract (rows : List Record) (fixedOrder : List String) :
    (∃ extras,
      (buildCsv rows fixedOrder).headers = fixedOrder ++ extras
      ∧ List.Sorted (· ≤ ·) extras ∧ extras.Nodup
      ∧ (∀ k, k ∈ extras ↔ ((∃ r ∈ rows, k ∈ r.map Prod.fst)
            ∧ fixedOrder.contains k = false ∧ k.startsWith "_" = false)))
  ∧ (buildCsv rows fixedOrder).csv
      = String.intercalate "," (buildCsv rows fixedOrder).headers ++ "\n"
        ++ String.join (rows.map (fun r =>
            String.intercalate ","
              ((buildCsv rows fixedOrder).headers.map (fun h => esc (jsGet r h))) ++ "\n")) := by
  refine ⟨⟨jsSortStrings (extrasOf rows fixedOrder), rfl, jsSortStrings_sorted _, ?_, ?_⟩, ?_⟩
  · exact ((List.mergeSort_perm (extrasOf rows fixedOrder) _).nodup_iff).mpr (nodup_extrasOf _ _)
  · intro k
    rw [jsSortStrings, List.mem_mergeSort, mem_extrasOf]
  · exact csv_fold _ rows _
